import Mathlib

/-!
Shallow embedding of `src/PathUtils.cpp` (path utilities of the framework,
TeknoParrot variant).

The filesystem and the OS are modelled explicitly: a state holds the set of
existing directories together with two oracles describing which paths make an
existence probe report an OS error (and which code) and which paths make the
OS-level directory-creation call fail.  Every function of the source is
translated over this state; the platform-conditional blocks (`#ifdef _WIN32`
inside `EnsurePathExists`, the per-platform files for the role resolvers) are
translated as explicit parameters or as separate definitions, one per branch
of the source.
-/

/-- A path component (one element yielded by iterating an `fs::path`). -/
abbrev Seg := String

/-- A filesystem path, as its list of components, in the order that iterating
an `fs::path` from `begin()` to `end()` produces them. -/
abbrev FsPath := List Seg

/-- POSIX `ENOENT` (2): the errno compared against in the non-Windows branch
of `PathUtils::EnsurePathExists`. -/
def ENOENT : Nat := 2

/-- Win32 `ERROR_FILE_NOT_FOUND` (2). -/
def ERROR_FILE_NOT_FOUND : Nat := 2

/-- Win32 `ERROR_ACCESS_DENIED` (5). -/
def ERROR_ACCESS_DENIED : Nat := 5

/-- POSIX `EACCES` (13): the errno a permission-denied existence probe
reports on POSIX platforms. -/
def EACCES : Nat := 13

/-- The filesystem state and OS-error environment a run interacts with:
`dirs` is the set of existing directories; `probeErr q` is the error code, if
any, that an existence probe (`fs::exists` with an `std::error_code` out
parameter) reports for path `q`; `createErr q` says whether the OS-level
`fs::create_directory` call fails for a path `q` that does not exist yet. -/
structure FS where
  dirs : List FsPath
  probeErr : FsPath → Option Nat
  createErr : FsPath → Bool

/-- Exceptions that can escape `PathUtils::EnsurePathExists`: the
`std::runtime_error` thrown by the probe-error branch, and the
`fs::filesystem_error` thrown by the error-code-free overload
`fs::create_directory(buildPath)` when the OS call fails. -/
inductive EnsureError where
  | runtimeError
  | filesystemError
deriving DecidableEq

/-- Result of a run of `EnsurePathExists`: the exception if one was thrown,
the filesystem afterwards, and instrumentation counting the existence probes
and the creation calls performed. -/
structure EnsureResult where
  err : Option EnsureError
  fs : FS
  probes : Nat
  creates : Nat

/-- Outcome of the probe-and-error-inspection block at the top of the loop
body of `PathUtils::EnsurePathExists` (lines 294-318 of the source). -/
inductive ProbeOutcome where
  | skipExisting
  | present
  | absent
  | fatal

/-- Translation of the existence probe and its error-code inspection inside
`PathUtils::EnsurePathExists`: on Windows, `ERROR_ACCESS_DENIED` is treated
as "it exists, continue", `ERROR_FILE_NOT_FOUND` as absent, anything else is
fatal; on other platforms only `ENOENT` is treated as absent and every other
probe error is fatal.  With no probe error, existence is the filesystem
truth. -/
def classifyProbe (win32 : Bool) (fs : FS) (q : FsPath) : ProbeOutcome :=
  match fs.probeErr q with
  | some c =>
    if win32 then
      if c = ERROR_ACCESS_DENIED then .skipExisting
      else if c = ERROR_FILE_NOT_FOUND then .absent
      else .fatal
    else
      if c = ENOENT then .absent
      else .fatal
  | none => if q ∈ fs.dirs then .present else .absent

/-- Loop of `PathUtils::EnsurePathExists`, translated from the source: `acc`
is the `buildPath` accumulated so far and the list argument is the remaining
path components.  Each iteration appends one component, probes it, and either
continues (`ERROR_ACCESS_DENIED` on Windows, or the path is present), throws
`std::runtime_error` (unexpected probe error), or calls the throwing overload
of `fs::create_directory` on exactly that prefix (when deemed absent); a
creation call on an already existing directory returns `false` without
throwing, and an OS-level creation failure throws `fs::filesystem_error`. -/
def ensureGo (win32 : Bool) (fs : FS) (acc : FsPath) : List Seg → EnsureResult
  | [] => { err := none, fs := fs, probes := 0, creates := 0 }
  | seg :: rest =>
    let q := acc ++ [seg]
    match classifyProbe win32 fs q with
    | .skipExisting =>
      let r := ensureGo win32 fs q rest
      { r with probes := r.probes + 1 }
    | .present =>
      let r := ensureGo win32 fs q rest
      { r with probes := r.probes + 1 }
    | .fatal => { err := some .runtimeError, fs := fs, probes := 1, creates := 0 }
    | .absent =>
      if q ∈ fs.dirs then
        let r := ensureGo win32 fs q rest
        { r with probes := r.probes + 1, creates := r.creates + 1 }
      else if fs.createErr q then
        { err := some .filesystemError, fs := fs, probes := 1, creates := 1 }
      else
        let r := ensureGo win32 { fs with dirs := q :: fs.dirs } q rest
        { r with probes := r.probes + 1, creates := r.creates + 1 }

namespace PathUtils

/-- `PathUtils::EnsurePathExists` (source lines 286-324), parameterized by
whether the Windows branch of the error-code inspection is compiled in. -/
def EnsurePathExists (win32 : Bool) (fs : FS) (p : FsPath) : EnsureResult :=
  ensureGo win32 fs [] p

end PathUtils

/-- The local condition under which processing one prefix `q` throws, judged
against a fixed filesystem: an unexpected probe error, or a prefix that is
deemed absent, really is missing, and whose creation call fails. -/
def stepFails (win32 : Bool) (fs : FS) (q : FsPath) : Bool :=
  match classifyProbe win32 fs q with
  | .fatal => true
  | .absent => if q ∈ fs.dirs then false else fs.createErr q
  | .skipExisting => false
  | .present => false

/-- Build platform selector, mirroring the `#if` chain of the source:
`_WIN32`, `__APPLE__`, `__linux__`/`__FreeBSD__`, and the final fallback. -/
inductive Platform where
  | win32
  | apple
  | linux
  | other
deriving DecidableEq

/-- Process environment the executable-location and resource-path queries
consult.  `winModuleFileName` is whatever the `GetModuleFileNameW` buffer
holds after the call (unspecified data when the call failed);
`winQueryOk` records whether that call succeeded, a fact the source never
consults.  `appleExePath` and `procSelfExe` are `none` when the
`_NSGetExecutablePath` or `readlink("/proc/self/exe")` query fails.
`appimage` and `appdir` are `getenv("APPIMAGE")` and `getenv("APPDIR")`,
with `appdir` already parsed as a path. -/
structure Env where
  winModuleFileName : FsPath
  winQueryOk : Bool
  appleExePath : Option FsPath
  procSelfExe : Option FsPath
  cwd : FsPath
  appimage : Option String
  appdir : Option FsPath

/-- `GetExecutableDirectory` (source lines 19-49).  The Windows branch calls
`GetModuleFileNameW` and takes `parent_path()` of the buffer without ever
checking the call's result; the Apple and Linux branches fall back to
`fs::current_path()` when their query fails; the final branch always returns
the current directory. -/
def GetExecutableDirectory (plat : Platform) (env : Env) : FsPath :=
  match plat with
  | .win32 => env.winModuleFileName.dropLast
  | .apple =>
    match env.appleExePath with
    | some p => p.dropLast
    | none => env.cwd
  | .linux =>
    match env.procSelfExe with
    | some p => p.dropLast
    | none => env.cwd
  | .other => env.cwd

/-- The two `static` locals of `GetTeknoParrotBaseDirectory`:
`teknoParrotPath` and the guard flag (named `initialized` in the source). -/
structure BaseCache where
  teknoParrotPath : FsPath
  flag : Bool
deriving DecidableEq

/-- Worker for `fs::create_directories(path, ec)`: creates every missing
prefix in order; an OS-level failure is recorded in `ec`, which the caller
ignores, so the walk just stops there. -/
def createDirectoriesGo (fs : FS) (acc : FsPath) : List Seg → FS
  | [] => fs
  | seg :: rest =>
    let q := acc ++ [seg]
    if q ∈ fs.dirs then createDirectoriesGo fs q rest
    else if fs.createErr q then fs
    else createDirectoriesGo { fs with dirs := q :: fs.dirs } q rest

/-- `fs::create_directories(p, ec)` with the error code swallowed. -/
def createDirectoriesBestEffort (fs : FS) (p : FsPath) : FS :=
  createDirectoriesGo fs [] p

/-- Result of a call to the base-directory resolver: the returned path, the
updated static-local state, and the filesystem afterwards. -/
structure BaseResult where
  path : FsPath
  cache : BaseCache
  fs : FS

/-- `GetTeknoParrotBaseDirectory` (source lines 52-72): on the first call,
joins the executable directory with the fixed `"TeknoParrot"` segment,
probes it with the error-code overload of `fs::exists` (an error makes the
probe return `false`), best-effort-creates it when the probe said no, and
latches the value; every later call returns the latched value. -/
def GetTeknoParrotBaseDirectory (plat : Platform) (c : BaseCache) (env : Env)
    (fs : FS) : BaseResult :=
  if c.flag then { path := c.teknoParrotPath, cache := c, fs := fs }
  else
    let p := GetExecutableDirectory plat env ++ ["TeknoParrot"]
    let existsB : Bool :=
      match fs.probeErr p with
      | some _ => false
      | none => decide (p ∈ fs.dirs)
    let fs2 := if existsB then fs else createDirectoriesBestEffort fs p
    { path := p, cache := { teknoParrotPath := p, flag := true }, fs := fs2 }

/-- The `exists && !existsErrorCode` pattern used by `GetAppResourcesPath`
(source lines 233 and 243): the non-throwing `fs::exists` returns `false`
when it reports an error, and the error code is additionally required to be
clear. -/
def existsNoError (fs : FS) (q : FsPath) : Bool :=
  match fs.probeErr q with
  | some _ => false
  | none => decide (q ∈ fs.dirs)

namespace PathUtils

/-- Result of a role-path resolver call on the Linux/FreeBSD/Emscripten
branch: the path it would return, the base-directory static state, the
filesystem, and the exception that escaped `EnsurePathExists`, if any (in
which case the C++ function does not return normally). -/
structure RoleResult where
  path : FsPath
  cache : BaseCache
  fs : FS
  err : Option EnsureError

/-- `PathUtils::GetRoamingDataPath`, Linux/FreeBSD/Emscripten branch
(source lines 252-257). -/
def GetRoamingDataPath (c : BaseCache) (env : Env) (fs : FS) : RoleResult :=
  let b := GetTeknoParrotBaseDirectory .linux c env fs
  let p := b.path ++ ["AppData", "Roaming"]
  let r := EnsurePathExists false b.fs p
  { path := p, cache := b.cache, fs := r.fs, err := r.err }

/-- `PathUtils::GetPersonalDataPath`, Linux/FreeBSD/Emscripten branch
(source lines 259-264). -/
def GetPersonalDataPath (c : BaseCache) (env : Env) (fs : FS) : RoleResult :=
  let b := GetTeknoParrotBaseDirectory .linux c env fs
  let p := b.path ++ ["Documents"]
  let r := EnsurePathExists false b.fs p
  { path := p, cache := b.cache, fs := r.fs, err := r.err }

/-- `PathUtils::GetCachePath`, Linux/FreeBSD/Emscripten branch
(source lines 266-271). -/
def GetCachePath (c : BaseCache) (env : Env) (fs : FS) : RoleResult :=
  let b := GetTeknoParrotBaseDirectory .linux c env fs
  let p := b.path ++ ["Cache"]
  let r := EnsurePathExists false b.fs p
  { path := p, cache := b.cache, fs := r.fs, err := r.err }

/-- `PathUtils::GetAppResourcesPath`, Linux/FreeBSD/Emscripten branch
(source lines 226-250): if `APPIMAGE` is set, probe `APPDIR "/usr/share"`
and return it when it exists cleanly (the source builds `fs::path` from
`getenv("APPDIR")` without a null check, which is undefined when `APPDIR`
is unset; the model substitutes the empty path there); otherwise probe the
fixed `/app/share` Flatpak path; otherwise return the executable
directory. -/
def GetAppResourcesPath (env : Env) (fs : FS) : FsPath :=
  let fallback : FsPath :=
    let flatpakPath : FsPath := ["/", "app", "share"]
    if existsNoError fs flatpakPath then flatpakPath
    else GetExecutableDirectory .linux env
  if env.appimage.isSome then
    let appImagePath := (env.appdir.getD []) ++ ["usr", "share"]
    if existsNoError fs appImagePath then appImagePath else fallback
  else fallback

end PathUtils

namespace PathUtils

/-- Module-level state of the `__ANDROID__` branch: the two file-scope
statics `s_filesDirPath` and `s_cacheDirPath` (source lines 180-181) plus
the static locals of `GetTeknoParrotBaseDirectory`. -/
structure AndroidState where
  filesDirPath : String
  cacheDirPath : String
  base : BaseCache

/-- `PathUtils::SetFilesDirPath` (source lines 210-215): stores the supplied
value into `s_filesDirPath` and does nothing else. -/
def SetFilesDirPath (filesDirPath : String) (s : AndroidState) : AndroidState :=
  { s with filesDirPath := filesDirPath }

/-- `PathUtils::SetCacheDirPath` (source lines 217-220): stores the supplied
value into `s_cacheDirPath` and does nothing else. -/
def SetCacheDirPath (cacheDirPath : String) (s : AndroidState) : AndroidState :=
  { s with cacheDirPath := cacheDirPath }

/-- Result of an Android role-path getter: path, updated module state,
filesystem, and any exception escaping `EnsurePathExists`. -/
structure AndroidRoleResult where
  path : FsPath
  state : AndroidState
  fs : FS
  err : Option EnsureError

namespace Android

/-- `PathUtils::GetAppResourcesPath`, `__ANDROID__` branch (source lines
183-187): returns the TeknoParrot base directory. -/
def GetAppResourcesPath (s : AndroidState) (env : Env) (fs : FS) : AndroidRoleResult :=
  let b := GetTeknoParrotBaseDirectory .linux s.base env fs
  { path := b.path, state := { s with base := b.cache }, fs := b.fs, err := none }

/-- `PathUtils::GetRoamingDataPath`, `__ANDROID__` branch (source lines
189-194). -/
def GetRoamingDataPath (s : AndroidState) (env : Env) (fs : FS) : AndroidRoleResult :=
  let b := GetTeknoParrotBaseDirectory .linux s.base env fs
  let p := b.path ++ ["AppData", "Roaming"]
  let r := EnsurePathExists false b.fs p
  { path := p, state := { s with base := b.cache }, fs := r.fs, err := r.err }

/-- `PathUtils::GetPersonalDataPath`, `__ANDROID__` branch (source lines
196-201). -/
def GetPersonalDataPath (s : AndroidState) (env : Env) (fs : FS) : AndroidRoleResult :=
  let b := GetTeknoParrotBaseDirectory .linux s.base env fs
  let p := b.path ++ ["Documents"]
  let r := EnsurePathExists false b.fs p
  { path := p, state := { s with base := b.cache }, fs := r.fs, err := r.err }

/-- `PathUtils::GetCachePath`, `__ANDROID__` branch (source lines 203-208). -/
def GetCachePath (s : AndroidState) (env : Env) (fs : FS) : AndroidRoleResult :=
  let b := GetTeknoParrotBaseDirectory .linux s.base env fs
  let p := b.path ++ ["Cache"]
  let r := EnsurePathExists false b.fs p
  { path := p, state := { s with base := b.cache }, fs := r.fs, err := r.err }

end Android

end PathUtils

/-- Modelled from the spec: `Framework::Utf8::ConvertTo` (the file
`Utf8.cpp` is not among the provided sources), encoding one Unicode scalar
value as its UTF-8 byte sequence, "a standard Unicode transformation". -/
def utf8EncodeChar (c : Nat) : List Nat :=
  if c < 0x80 then [c]
  else if c < 0x800 then [0xC0 + c / 64, 0x80 + c % 64]
  else if c < 0x10000 then
    [0xE0 + c / 4096, 0x80 + (c / 64) % 64, 0x80 + c % 64]
  else
    [0xF0 + c / 262144, 0x80 + (c / 4096) % 64, 0x80 + (c / 64) % 64, 0x80 + c % 64]

/-- Modelled from the spec: UTF-8 encoding of a wide (Unicode scalar value)
string, as performed by `Framework::Utf8::ConvertTo`. -/
def utf8Encode : List Nat → List Nat
  | [] => []
  | c :: cs => utf8EncodeChar c ++ utf8Encode cs

/-- Modelled from the spec: one step of `Framework::Utf8::ConvertFrom` (the
file `Utf8.cpp` is not among the provided sources), reading one UTF-8-encoded
Unicode scalar value off the front of a byte sequence, following the
lead-byte ranges of the standard transformation; `none` on an empty or
truncated sequence. -/
def utf8Step (l : List Nat) : Option (Nat × List Nat) :=
  match l with
  | [] => none
  | b :: bs =>
    if b < 0x80 then some (b, bs)
    else if b < 0xE0 then
      match bs with
      | b1 :: bs2 => some ((b - 0xC0) * 64 + (b1 - 0x80), bs2)
      | [] => none
    else if b < 0xF0 then
      match bs with
      | b1 :: b2 :: bs3 => some ((b - 0xE0) * 4096 + (b1 - 0x80) * 64 + (b2 - 0x80), bs3)
      | _ => none
    else
      match bs with
      | b1 :: b2 :: b3 :: bs4 =>
        some ((b - 0xF0) * 262144 + (b1 - 0x80) * 4096 + (b2 - 0x80) * 64 + (b3 - 0x80), bs4)
      | _ => none

/-- Modelled from the spec: `Framework::Utf8::ConvertFrom`, decoding scalar
by scalar; the fuel argument (at least the byte count) makes the recursion
structural. -/
def utf8DecodeAux : Nat → List Nat → List Nat
  | 0, _ => []
  | fuel + 1, l =>
    match utf8Step l with
    | none => []
    | some (c, rest) => c :: utf8DecodeAux fuel rest

/-- Modelled from the spec: `Framework::Utf8::ConvertFrom` on a whole byte
string. -/
def utf8Decode (l : List Nat) : List Nat :=
  utf8DecodeAux l.length l

/-- The native representation of an `fs::path`: on platforms where
`fs::path::string_type` is `std::string` the value is a byte string; where
it is `std::wstring` the value is a wide-character string (Unicode scalar
values).  Paths compare equal exactly when their native strings do. -/
inductive NativePath where
  | bytes (s : List Nat)
  | wide (w : List Nat)
deriving DecidableEq

namespace PathUtils

/-- `PathUtils::GetNativeStringFromPath` (source lines 364-367): identity on
byte-string natives, `Framework::Utf8::ConvertTo` on wide natives. -/
def GetNativeStringFromPath : NativePath → List Nat
  | .bytes s => s
  | .wide w => utf8Encode w

/-- `PathUtils::GetPathFromNativeString` (source lines 369-373): identity
into a byte-string native, `Framework::Utf8::ConvertFrom` into a wide
native, selected by `fs::path::string_type`. -/
def GetPathFromNativeString (wideNative : Bool) (s : List Nat) : NativePath :=
  if wideNative then .wide (utf8Decode s) else .bytes s

end PathUtils


/-- Concrete state: nothing exists, probes are error-free, and every
creation call fails at the OS level (as on a read-only filesystem). -/
def fsCreateFail : FS :=
  { dirs := [], probeErr := fun _ => none, createErr := fun _ => true }

/-- Concrete state: the probe of `a` reports `EACCES` (permission denied);
everything else is error-free. -/
def fsDeniedProbe : FS :=
  { dirs := [],
    probeErr := fun q => if q = ["a"] then some EACCES else none,
    createErr := fun _ => false }

/-- Concrete state: the probe of `C:/locked` reports `ERROR_ACCESS_DENIED`;
everything else is error-free. -/
def fsDeniedWin : FS :=
  { dirs := [],
    probeErr := fun q => if q = ["C:", "locked"] then some ERROR_ACCESS_DENIED else none,
    createErr := fun _ => false }

/-- Concrete environment in which the Windows executable-path query failed,
leaving unspecified data in the buffer. -/
def envWinQueryFailed : Env :=
  { winModuleFileName := ["garbage"], winQueryOk := false,
    appleExePath := none, procSelfExe := none, cwd := ["C:", "work"],
    appimage := none, appdir := none }

/-- Uninitialized base-directory static state, as at process start. -/
def baseCacheW : BaseCache := { teknoParrotPath := [], flag := false }

/-- Concrete environment: a Linux process at `/opt/app.bin`, no container
markers. -/
def envW : Env :=
  { winModuleFileName := [], winQueryOk := true, appleExePath := none,
    procSelfExe := some ["opt", "app.bin"], cwd := ["opt"],
    appimage := none, appdir := none }

/-- Concrete filesystem: only the executable directory exists; no probe or
creation errors. -/
def fsW : FS :=
  { dirs := [["opt"]], probeErr := fun _ => none, createErr := fun _ => false }

/-- Concrete environment: `APPIMAGE` set, `APPDIR` mounted at
`/tmp/mount`. -/
def envAppImg : Env :=
  { winModuleFileName := [], winQueryOk := true, appleExePath := none,
    procSelfExe := some ["opt", "app.bin"], cwd := ["opt"],
    appimage := some ("1"), appdir := some ["tmp", "mount"] }

/-- Concrete filesystem in which the AppImage resource path exists. -/
def fsAppImg : FS :=
  { dirs := [["tmp", "mount", "usr", "share"]], probeErr := fun _ => none,
    createErr := fun _ => false }

/-- Concrete environment with no container markers at all. -/
def envPlain : Env :=
  { winModuleFileName := [], winQueryOk := true, appleExePath := none,
    procSelfExe := some ["opt", "app.bin"], cwd := ["opt"],
    appimage := none, appdir := none }

/-- Concrete empty filesystem with no probe or creation errors. -/
def fsEmpty : FS :=
  { dirs := [], probeErr := fun _ => none, createErr := fun _ => false }

/-- Instrumentation bounds for the loop: at most one probe per remaining
component, and never more creation calls than probes. -/
theorem ensureGo_counts (win32 : Bool) :
    ∀ (rest : List Seg) (fs : FS) (acc : FsPath),
      (ensureGo win32 fs acc rest).probes ≤ rest.length ∧
      (ensureGo win32 fs acc rest).creates ≤ (ensureGo win32 fs acc rest).probes := by
  intro rest
  induction rest with
  | nil => intro fs acc; simp [ensureGo]
  | cons seg t ih =>
    intro fs acc
    rw [ensureGo]
    rcases h : classifyProbe win32 fs (acc ++ [seg]) with _ | _ | _ | _ <;> simp only [h]
    · have := ih fs (acc ++ [seg])
      simp only [List.length_cons]
      omega
    · have := ih fs (acc ++ [seg])
      simp only [List.length_cons]
      omega
    · split
      · have := ih fs (acc ++ [seg])
        simp only [List.length_cons]
        omega
      · split
        · simp
        · have := ih { fs with dirs := (acc ++ [seg]) :: fs.dirs } (acc ++ [seg])
          simp only [List.length_cons]
          omega
    · simp

/-- Unfolding lemma: the Win32 permission-denied branch (`continue`). -/
theorem ensureGo_cons_skip (win32 : Bool) (fs : FS) (acc : FsPath) (seg : Seg)
    (rest : List Seg) (h : classifyProbe win32 fs (acc ++ [seg]) = .skipExisting) :
    ensureGo win32 fs acc (seg :: rest) =
      { ensureGo win32 fs (acc ++ [seg]) rest with
        probes := (ensureGo win32 fs (acc ++ [seg]) rest).probes + 1 } := by
  rw [ensureGo]
  simp only [h]

/-- Unfolding lemma: the path component is present, move on. -/
theorem ensureGo_cons_present (win32 : Bool) (fs : FS) (acc : FsPath) (seg : Seg)
    (rest : List Seg) (h : classifyProbe win32 fs (acc ++ [seg]) = .present) :
    ensureGo win32 fs acc (seg :: rest) =
      { ensureGo win32 fs (acc ++ [seg]) rest with
        probes := (ensureGo win32 fs (acc ++ [seg]) rest).probes + 1 } := by
  rw [ensureGo]
  simp only [h]

/-- Unfolding lemma: an unexpected probe error throws `std::runtime_error`. -/
theorem ensureGo_cons_fatal (win32 : Bool) (fs : FS) (acc : FsPath) (seg : Seg)
    (rest : List Seg) (h : classifyProbe win32 fs (acc ++ [seg]) = .fatal) :
    ensureGo win32 fs acc (seg :: rest) =
      { err := some .runtimeError, fs := fs, probes := 1, creates := 0 } := by
  rw [ensureGo]
  simp only [h]

/-- Unfolding lemma: deemed absent though the directory is there, so the
creation call returns `false` and nothing changes. -/
theorem ensureGo_cons_absent_mem (win32 : Bool) (fs : FS) (acc : FsPath) (seg : Seg)
    (rest : List Seg) (h : classifyProbe win32 fs (acc ++ [seg]) = .absent)
    (hm : acc ++ [seg] ∈ fs.dirs) :
    ensureGo win32 fs acc (seg :: rest) =
      { ensureGo win32 fs (acc ++ [seg]) rest with
        probes := (ensureGo win32 fs (acc ++ [seg]) rest).probes + 1,
        creates := (ensureGo win32 fs (acc ++ [seg]) rest).creates + 1 } := by
  rw [ensureGo]
  simp only [h]
  simp [hm]

/-- Unfolding lemma: deemed absent and the creation call fails at the OS
level, throwing `fs::filesystem_error`. -/
theorem ensureGo_cons_absent_createFail (win32 : Bool) (fs : FS) (acc : FsPath) (seg : Seg)
    (rest : List Seg) (h : classifyProbe win32 fs (acc ++ [seg]) = .absent)
    (hm : acc ++ [seg] ∉ fs.dirs) (hc : fs.createErr (acc ++ [seg]) = true) :
    ensureGo win32 fs acc (seg :: rest) =
      { err := some .filesystemError, fs := fs, probes := 1, creates := 1 } := by
  rw [ensureGo]
  simp only [h]
  simp [hm, hc]

/-- Unfolding lemma: deemed absent and the creation call succeeds, adding
exactly that prefix. -/
theorem ensureGo_cons_absent_create (win32 : Bool) (fs : FS) (acc : FsPath) (seg : Seg)
    (rest : List Seg) (h : classifyProbe win32 fs (acc ++ [seg]) = .absent)
    (hm : acc ++ [seg] ∉ fs.dirs) (hc : fs.createErr (acc ++ [seg]) = false) :
    ensureGo win32 fs acc (seg :: rest) =
      { ensureGo win32 { fs with dirs := (acc ++ [seg]) :: fs.dirs } (acc ++ [seg]) rest with
        probes :=
          (ensureGo win32 { fs with dirs := (acc ++ [seg]) :: fs.dirs } (acc ++ [seg]) rest).probes + 1,
        creates :=
          (ensureGo win32 { fs with dirs := (acc ++ [seg]) :: fs.dirs } (acc ++ [seg]) rest).creates + 1 } := by
  rw [ensureGo]
  simp only [h]
  simp [hm, hc]

/-- Inversion: a `skipExisting` outcome only arises on Windows from an
`ERROR_ACCESS_DENIED` probe error. -/
theorem classifyProbe_skip_inv (win32 : Bool) (fs : FS) (q : FsPath)
    (h : classifyProbe win32 fs q = .skipExisting) :
    win32 = true ∧ fs.probeErr q = some ERROR_ACCESS_DENIED := by
  unfold classifyProbe at h
  cases hq : fs.probeErr q with
  | none =>
    rw [hq] at h
    by_cases hm : q ∈ fs.dirs <;> simp [hm] at h
  | some c =>
    rw [hq] at h
    cases win32 with
    | false =>
      exfalso
      by_cases hc : c = ENOENT <;> simp [hc] at h
    | true =>
      by_cases h5 : c = ERROR_ACCESS_DENIED
      · exact ⟨rfl, by rw [h5]⟩
      · exfalso
        by_cases h2 : c = ERROR_FILE_NOT_FOUND
        · rw [h2] at h h5
          simp [h5] at h
        · simp [h5, h2] at h

/-- Inversion: a `present` outcome only arises from an error-free probe of a
directory that is really there. -/
theorem classifyProbe_present_inv (win32 : Bool) (fs : FS) (q : FsPath)
    (h : classifyProbe win32 fs q = .present) :
    fs.probeErr q = none ∧ q ∈ fs.dirs := by
  unfold classifyProbe at h
  cases hq : fs.probeErr q with
  | none =>
    rw [hq] at h
    by_cases hm : q ∈ fs.dirs
    · exact ⟨rfl, hm⟩
    · simp [hm] at h
  | some c =>
    rw [hq] at h
    exfalso
    cases win32 with
    | false => by_cases hc : c = ENOENT <;> simp [hc] at h
    | true =>
      by_cases h5 : c = ERROR_ACCESS_DENIED
      · simp [h5] at h
      · by_cases h2 : c = ERROR_FILE_NOT_FOUND
        · rw [h2] at h h5
          simp [h5] at h
        · simp [h5, h2] at h

/-- The probe classification ignores the directory set whenever the probe
reports an error. -/
theorem classifyProbe_some_congr (win32 : Bool) (fs2 fs : FS) (q : FsPath)
    (hp : fs2.probeErr q = fs.probeErr q) (c : Nat) (h : fs.probeErr q = some c) :
    classifyProbe win32 fs2 q = classifyProbe win32 fs q := by
  unfold classifyProbe
  rw [hp, h]

/-- The probe classification of an error-free probe of an existing directory. -/
theorem classifyProbe_none_mem (win32 : Bool) (fs : FS) (q : FsPath)
    (h : fs.probeErr q = none) (hm : q ∈ fs.dirs) :
    classifyProbe win32 fs q = .present := by
  unfold classifyProbe
  rw [h]
  simp [hm]

/-- The probe classification of an error-free probe of a missing directory. -/
theorem classifyProbe_none_not_mem (win32 : Bool) (fs : FS) (q : FsPath)
    (h : fs.probeErr q = none) (hm : q ∉ fs.dirs) :
    classifyProbe win32 fs q = .absent := by
  unfold classifyProbe
  rw [h]
  simp [hm]

/-- The loop never changes the probe and creation oracles. -/
theorem ensureGo_oracles (win32 : Bool) :
    ∀ (rest : List Seg) (fs : FS) (acc : FsPath),
      (ensureGo win32 fs acc rest).fs.probeErr = fs.probeErr ∧
      (ensureGo win32 fs acc rest).fs.createErr = fs.createErr := by
  intro rest
  induction rest with
  | nil => intro fs acc; simp [ensureGo]
  | cons seg t ih =>
    intro fs acc
    rw [ensureGo]
    rcases h : classifyProbe win32 fs (acc ++ [seg]) with _ | _ | _ | _ <;> simp only [h]
    · exact ih fs (acc ++ [seg])
    · exact ih fs (acc ++ [seg])
    · split
      · exact ih fs (acc ++ [seg])
      · split
        · simp
        · exact ih { fs with dirs := (acc ++ [seg]) :: fs.dirs } (acc ++ [seg])
    · simp

/-- The loop only ever adds directories, never removes one. -/
theorem ensureGo_mem_mono (win32 : Bool) :
    ∀ (rest : List Seg) (fs : FS) (acc : FsPath) (d : FsPath),
      d ∈ fs.dirs → d ∈ (ensureGo win32 fs acc rest).fs.dirs := by
  intro rest
  induction rest with
  | nil => intro fs acc d hd; simpa [ensureGo] using hd
  | cons seg t ih =>
    intro fs acc d hd
    rw [ensureGo]
    rcases h : classifyProbe win32 fs (acc ++ [seg]) with _ | _ | _ | _ <;> simp only [h]
    · exact ih fs (acc ++ [seg]) d hd
    · exact ih fs (acc ++ [seg]) d hd
    · split
      · exact ih fs (acc ++ [seg]) d hd
      · split
        · simpa using hd
        · exact ih { fs with dirs := (acc ++ [seg]) :: fs.dirs } (acc ++ [seg]) d
            (by simp [hd])
    · simpa using hd

/-- Running the loop a second time from the state the first run produced
repeats the outcome: same final filesystem, same thrown-exception result. -/
theorem ensureGo_idem (win32 : Bool) :
    ∀ (rest : List Seg) (fs : FS) (acc : FsPath),
      (ensureGo win32 (ensureGo win32 fs acc rest).fs acc rest).fs =
        (ensureGo win32 fs acc rest).fs ∧
      (ensureGo win32 (ensureGo win32 fs acc rest).fs acc rest).err =
        (ensureGo win32 fs acc rest).err := by
  intro rest
  induction rest with
  | nil => intro fs acc; simp [ensureGo]
  | cons seg t ih =>
    intro fs acc
    rcases h : classifyProbe win32 fs (acc ++ [seg]) with _ | _ | _ | _
    · obtain ⟨hw, hp⟩ := classifyProbe_skip_inv win32 fs _ h
      have ho := (ensureGo_oracles win32 t fs (acc ++ [seg])).1
      have h2 : classifyProbe win32 (ensureGo win32 fs (acc ++ [seg]) t).fs (acc ++ [seg]) =
          ProbeOutcome.skipExisting := by
        rw [classifyProbe_some_congr win32 _ fs _ (by rw [ho]) _ hp]
        exact h
      rw [ensureGo_cons_skip win32 fs acc seg t h]
      dsimp only
      rw [ensureGo_cons_skip win32 _ acc seg t h2]
      dsimp only
      exact ih fs (acc ++ [seg])
    · obtain ⟨hp, hm⟩ := classifyProbe_present_inv win32 fs _ h
      have ho := (ensureGo_oracles win32 t fs (acc ++ [seg])).1
      have hm2 : acc ++ [seg] ∈ (ensureGo win32 fs (acc ++ [seg]) t).fs.dirs :=
        ensureGo_mem_mono win32 t fs (acc ++ [seg]) _ hm
      have h2 : classifyProbe win32 (ensureGo win32 fs (acc ++ [seg]) t).fs (acc ++ [seg]) =
          ProbeOutcome.present :=
        classifyProbe_none_mem win32 _ _ (by rw [ho]; exact hp) hm2
      rw [ensureGo_cons_present win32 fs acc seg t h]
      dsimp only
      rw [ensureGo_cons_present win32 _ acc seg t h2]
      dsimp only
      exact ih fs (acc ++ [seg])
    · cases hq : fs.probeErr (acc ++ [seg]) with
      | none =>
        have hm : acc ++ [seg] ∉ fs.dirs := by
          intro hmem
          rw [classifyProbe_none_mem win32 fs _ hq hmem] at h
          exact absurd h (by simp)
        by_cases hc : fs.createErr (acc ++ [seg])
        · rw [ensureGo_cons_absent_createFail win32 fs acc seg t h hm hc]
          dsimp only
          rw [ensureGo_cons_absent_createFail win32 fs acc seg t h hm hc]
          exact ⟨rfl, rfl⟩
        · have hcf : fs.createErr (acc ++ [seg]) = false := by simpa using hc
          rw [ensureGo_cons_absent_create win32 fs acc seg t h hm hcf]
          dsimp only
          have ho := (ensureGo_oracles win32 t
            { fs with dirs := (acc ++ [seg]) :: fs.dirs } (acc ++ [seg])).1
          have hm2 : acc ++ [seg] ∈
              (ensureGo win32 { fs with dirs := (acc ++ [seg]) :: fs.dirs }
                (acc ++ [seg]) t).fs.dirs :=
            ensureGo_mem_mono win32 t _ _ _ (by simp)
          have h2 : classifyProbe win32
              (ensureGo win32 { fs with dirs := (acc ++ [seg]) :: fs.dirs }
                (acc ++ [seg]) t).fs (acc ++ [seg]) = ProbeOutcome.present :=
            classifyProbe_none_mem win32 _ _ (by rw [ho]; exact hq) hm2
          rw [ensureGo_cons_present win32 _ acc seg t h2]
          dsimp only
          exact ih { fs with dirs := (acc ++ [seg]) :: fs.dirs } (acc ++ [seg])
      | some c =>
        by_cases hm : acc ++ [seg] ∈ fs.dirs
        · rw [ensureGo_cons_absent_mem win32 fs acc seg t h hm]
          dsimp only
          have ho := (ensureGo_oracles win32 t fs (acc ++ [seg])).1
          have h2 : classifyProbe win32 (ensureGo win32 fs (acc ++ [seg]) t).fs (acc ++ [seg]) =
              ProbeOutcome.absent := by
            rw [classifyProbe_some_congr win32 _ fs _ (by rw [ho]) _ hq]
            exact h
          have hm2 := ensureGo_mem_mono win32 t fs (acc ++ [seg]) _ hm
          rw [ensureGo_cons_absent_mem win32 _ acc seg t h2 hm2]
          dsimp only
          exact ih fs (acc ++ [seg])
        · by_cases hc : fs.createErr (acc ++ [seg])
          · rw [ensureGo_cons_absent_createFail win32 fs acc seg t h hm hc]
            dsimp only
            rw [ensureGo_cons_absent_createFail win32 fs acc seg t h hm hc]
            exact ⟨rfl, rfl⟩
          · have hcf : fs.createErr (acc ++ [seg]) = false := by simpa using hc
            rw [ensureGo_cons_absent_create win32 fs acc seg t h hm hcf]
            dsimp only
            have ho := (ensureGo_oracles win32 t
              { fs with dirs := (acc ++ [seg]) :: fs.dirs } (acc ++ [seg])).1
            have h2 : classifyProbe win32
                (ensureGo win32 { fs with dirs := (acc ++ [seg]) :: fs.dirs }
                  (acc ++ [seg]) t).fs (acc ++ [seg]) = ProbeOutcome.absent := by
              rw [classifyProbe_some_congr win32 _ fs _ (by rw [ho]) _ hq]
              exact h
            have hm2 : acc ++ [seg] ∈
                (ensureGo win32 { fs with dirs := (acc ++ [seg]) :: fs.dirs }
                  (acc ++ [seg]) t).fs.dirs :=
              ensureGo_mem_mono win32 t _ _ _ (by simp)
            rw [ensureGo_cons_absent_mem win32 _ acc seg t h2 hm2]
            dsimp only
            exact ih { fs with dirs := (acc ++ [seg]) :: fs.dirs } (acc ++ [seg])
    · rw [ensureGo_cons_fatal win32 fs acc seg t h]
      dsimp only
      rw [ensureGo_cons_fatal win32 fs acc seg t h]
      exact ⟨rfl, rfl⟩

/-- On POSIX (no permission-denied skip), a loop run that throws nothing
leaves the full accumulated path present in the final directory set. -/
theorem ensureGo_ok_mem :
    ∀ (rest : List Seg) (fs : FS) (acc : FsPath),
      (ensureGo false fs acc rest).err = none →
      rest = [] ∨ (acc ++ rest) ∈ (ensureGo false fs acc rest).fs.dirs := by
  intro rest
  induction rest with
  | nil => intro fs acc _; left; rfl
  | cons seg t ih =>
    intro fs acc hok
    right
    rcases h : classifyProbe false fs (acc ++ [seg]) with _ | _ | _ | _
    · exact absurd (classifyProbe_skip_inv false fs _ h).1 (by simp)
    · obtain ⟨hp, hm⟩ := classifyProbe_present_inv false fs _ h
      rw [ensureGo_cons_present false fs acc seg t h] at hok ⊢
      dsimp only at hok ⊢
      rcases ih fs (acc ++ [seg]) hok with ht | hmem
      · subst ht
        simpa [ensureGo] using hm
      · simpa [List.append_assoc] using hmem
    · cases hq2 : fs.probeErr (acc ++ [seg]) with
      | none =>
        have hm : acc ++ [seg] ∉ fs.dirs := by
          intro hmem
          rw [classifyProbe_none_mem false fs _ hq2 hmem] at h
          exact absurd h (by simp)
        by_cases hc : fs.createErr (acc ++ [seg])
        · rw [ensureGo_cons_absent_createFail false fs acc seg t h hm hc] at hok
          exact absurd hok (by simp)
        · have hcf : fs.createErr (acc ++ [seg]) = false := by simpa using hc
          rw [ensureGo_cons_absent_create false fs acc seg t h hm hcf] at hok ⊢
          dsimp only at hok ⊢
          rcases ih { fs with dirs := (acc ++ [seg]) :: fs.dirs } (acc ++ [seg]) hok with ht | hmem
          · subst ht
            simp [ensureGo]
          · simpa [List.append_assoc] using hmem
      | some c =>
        by_cases hm : acc ++ [seg] ∈ fs.dirs
        · rw [ensureGo_cons_absent_mem false fs acc seg t h hm] at hok ⊢
          dsimp only at hok ⊢
          rcases ih fs (acc ++ [seg]) hok with ht | hmem
          · subst ht
            simpa [ensureGo] using hm
          · simpa [List.append_assoc] using hmem
        · by_cases hc : fs.createErr (acc ++ [seg])
          · rw [ensureGo_cons_absent_createFail false fs acc seg t h hm hc] at hok
            exact absurd hok (by simp)
          · have hcf : fs.createErr (acc ++ [seg]) = false := by simpa using hc
            rw [ensureGo_cons_absent_create false fs acc seg t h hm hcf] at hok ⊢
            dsimp only at hok ⊢
            rcases ih { fs with dirs := (acc ++ [seg]) :: fs.dirs } (acc ++ [seg]) hok with ht | hmem
            · subst ht
              simp [ensureGo]
            · simpa [List.append_assoc] using hmem
    · rw [ensureGo_cons_fatal false fs acc seg t h] at hok
      exact absurd hok (by simp)

/-- Adding a directory other than `q` itself does not change whether
processing `q` throws. -/
theorem stepFails_insert (win32 : Bool) (fs : FS) (d q : FsPath) (hne : q ≠ d) :
    stepFails win32 { fs with dirs := d :: fs.dirs } q = stepFails win32 fs q := by
  have hcl : classifyProbe win32 { fs with dirs := d :: fs.dirs } q =
      classifyProbe win32 fs q := by
    unfold classifyProbe
    dsimp only
    cases hq : fs.probeErr q with
    | some c => rfl
    | none => simp [List.mem_cons, hne]
  unfold stepFails
  rw [hcl]
  cases hc : classifyProbe win32 fs q <;> simp [List.mem_cons, hne]

/-- Index bookkeeping: a nonempty prefix of `seg :: t` appended to `acc` is
either `acc ++ [seg]` or a longer prefix through `acc ++ [seg]`. -/
theorem exists_take_cons (P : FsPath → Prop) (acc : FsPath) (seg : Seg) (t : List Seg) :
    (∃ k, k < (seg :: t).length ∧ P (acc ++ (seg :: t).take (k + 1))) ↔
      (P (acc ++ [seg]) ∨ ∃ k, k < t.length ∧ P ((acc ++ [seg]) ++ t.take (k + 1))) := by
  constructor
  · rintro ⟨k, hk, hp⟩
    cases k with
    | zero => left; simpa using hp
    | succ k =>
      right
      refine ⟨k, by simpa using hk, ?_⟩
      simpa [List.take_succ_cons, List.append_assoc] using hp
  · rintro (hp | ⟨k, hk, hp⟩)
    · exact ⟨0, by simp, by simpa using hp⟩
    · exact ⟨k + 1, by simpa using hk,
        by simpa [List.take_succ_cons, List.append_assoc] using hp⟩

/-- The loop throws exactly when some nonempty prefix of the remaining path
satisfies the local failure condition, judged against the starting
filesystem. -/
theorem ensureGo_err_iff (win32 : Bool) :
    ∀ (rest : List Seg) (fs : FS) (acc : FsPath),
      (ensureGo win32 fs acc rest).err ≠ none ↔
        ∃ k, k < rest.length ∧ stepFails win32 fs (acc ++ rest.take (k + 1)) = true := by
  intro rest
  induction rest with
  | nil => intro fs acc; simp [ensureGo]
  | cons seg t ih =>
    intro fs acc
    rw [exists_take_cons (fun q => stepFails win32 fs q = true) acc seg t]
    rcases h : classifyProbe win32 fs (acc ++ [seg]) with _ | _ | _ | _
    · have hsf : stepFails win32 fs (acc ++ [seg]) = false := by
        unfold stepFails
        rw [h]
      rw [ensureGo_cons_skip win32 fs acc seg t h]
      dsimp only
      rw [ih fs (acc ++ [seg])]
      simp [hsf]
    · have hsf : stepFails win32 fs (acc ++ [seg]) = false := by
        unfold stepFails
        rw [h]
      rw [ensureGo_cons_present win32 fs acc seg t h]
      dsimp only
      rw [ih fs (acc ++ [seg])]
      simp [hsf]
    · by_cases hm : acc ++ [seg] ∈ fs.dirs
      · have hsf : stepFails win32 fs (acc ++ [seg]) = false := by
          unfold stepFails
          rw [h]
          simp [hm]
        rw [ensureGo_cons_absent_mem win32 fs acc seg t h hm]
        dsimp only
        rw [ih fs (acc ++ [seg])]
        simp [hsf]
      · by_cases hc : fs.createErr (acc ++ [seg])
        · have hsf : stepFails win32 fs (acc ++ [seg]) = true := by
            unfold stepFails
            rw [h]
            simp [hm, hc]
          rw [ensureGo_cons_absent_createFail win32 fs acc seg t h hm hc]
          dsimp only
          simp [hsf]
        · have hcf : fs.createErr (acc ++ [seg]) = false := by simpa using hc
          have hsf : stepFails win32 fs (acc ++ [seg]) = false := by
            unfold stepFails
            rw [h]
            simp [hm, hcf]
          have hne : ∀ k, k < t.length → (acc ++ [seg]) ++ t.take (k + 1) ≠ acc ++ [seg] := by
            intro k hk heq
            have hlen := congrArg List.length heq
            simp only [List.length_append, List.length_take, List.length_cons,
              List.length_nil] at hlen
            omega
          rw [ensureGo_cons_absent_create win32 fs acc seg t h hm hcf]
          dsimp only
          rw [ih { fs with dirs := (acc ++ [seg]) :: fs.dirs } (acc ++ [seg])]
          constructor
          · rintro ⟨k, hk, hs⟩
            refine Or.inr ⟨k, hk, ?_⟩
            rw [← stepFails_insert win32 fs (acc ++ [seg]) _ (hne k hk)]
            exact hs
          · rintro (hs | ⟨k, hk, hs⟩)
            · rw [hsf] at hs
              exact absurd hs (by simp)
            · refine ⟨k, hk, ?_⟩
              rw [stepFails_insert win32 fs (acc ++ [seg]) _ (hne k hk)]
              exact hs
    · have hsf : stepFails win32 fs (acc ++ [seg]) = true := by
        unfold stepFails
        rw [h]
      rw [ensureGo_cons_fatal win32 fs acc seg t h]
      dsimp only
      simp [hsf]

/-- One decode step picks the encoded scalar back off the front. -/
theorem utf8Step_encodeChar (c : Nat) (hc : c < 0x110000) (r : List Nat) :
    utf8Step (utf8EncodeChar c ++ r) = some (c, r) := by
  by_cases h1 : c < 0x80
  · have e : utf8EncodeChar c = [c] := by
      unfold utf8EncodeChar
      rw [if_pos h1]
    rw [e]
    simp only [List.cons_append, List.nil_append]
    unfold utf8Step
    dsimp only
    rw [if_pos h1]
  · by_cases h2 : c < 0x800
    · have e : utf8EncodeChar c = [0xC0 + c / 64, 0x80 + c % 64] := by
        unfold utf8EncodeChar
        rw [if_neg h1, if_pos h2]
      rw [e]
      simp only [List.cons_append, List.nil_append]
      unfold utf8Step
      dsimp only
      rw [if_neg (by omega : ¬ 0xC0 + c / 64 < 0x80), if_pos (by omega : 0xC0 + c / 64 < 0xE0)]
      have hv : (0xC0 + c / 64 - 0xC0) * 64 + (0x80 + c % 64 - 0x80) = c := by omega
      rw [hv]
    · by_cases h3 : c < 0x10000
      · have e : utf8EncodeChar c = [0xE0 + c / 4096, 0x80 + (c / 64) % 64, 0x80 + c % 64] := by
          unfold utf8EncodeChar
          rw [if_neg h1, if_neg h2, if_pos h3]
        rw [e]
        simp only [List.cons_append, List.nil_append]
        unfold utf8Step
        dsimp only
        rw [if_neg (by omega : ¬ 0xE0 + c / 4096 < 0x80),
          if_neg (by omega : ¬ 0xE0 + c / 4096 < 0xE0),
          if_pos (by omega : 0xE0 + c / 4096 < 0xF0)]
        have hv : (0xE0 + c / 4096 - 0xE0) * 4096 + (0x80 + (c / 64) % 64 - 0x80) * 64 +
            (0x80 + c % 64 - 0x80) = c := by omega
        rw [hv]
      · have e : utf8EncodeChar c = [0xF0 + c / 262144, 0x80 + (c / 4096) % 64,
            0x80 + (c / 64) % 64, 0x80 + c % 64] := by
          unfold utf8EncodeChar
          rw [if_neg h1, if_neg h2, if_neg h3]
        rw [e]
        simp only [List.cons_append, List.nil_append]
        unfold utf8Step
        dsimp only
        rw [if_neg (by omega : ¬ 0xF0 + c / 262144 < 0x80),
          if_neg (by omega : ¬ 0xF0 + c / 262144 < 0xE0),
          if_neg (by omega : ¬ 0xF0 + c / 262144 < 0xF0)]
        have hv : (0xF0 + c / 262144 - 0xF0) * 262144 + (0x80 + (c / 4096) % 64 - 0x80) * 4096 +
            (0x80 + (c / 64) % 64 - 0x80) * 64 + (0x80 + c % 64 - 0x80) = c := by omega
        rw [hv]

/-- Decoding an empty byte string yields the empty wide string at any fuel. -/
theorem utf8DecodeAux_nil : ∀ fuel : Nat, utf8DecodeAux fuel [] = [] := by
  intro fuel
  cases fuel with
  | zero => rfl
  | succ n => rw [utf8DecodeAux]; rfl

/-- Fuelled decoding inverts encoding, char by char, leaving the tail to the
remaining fuel. -/
theorem utf8DecodeAux_encode (w : List Nat) (hw : ∀ c ∈ w, c < 0x110000)
    (r : List Nat) (m : Nat) :
    utf8DecodeAux (w.length + m) (utf8Encode w ++ r) = w ++ utf8DecodeAux m r := by
  induction w generalizing m with
  | nil => simp [utf8Encode]
  | cons c cs ih =>
    have hc : c < 0x110000 := hw c (by simp)
    have hcs : ∀ d ∈ cs, d < 0x110000 := fun d hd => hw d (by simp [hd])
    have hlen : (c :: cs).length + m = (cs.length + m) + 1 := by simp; omega
    rw [hlen, utf8Encode]
    rw [List.append_assoc]
    rw [utf8DecodeAux]
    rw [utf8Step_encodeChar c hc (utf8Encode cs ++ r)]
    dsimp only
    rw [ih hcs m]
    rfl

/-- Encoding never shrinks: each scalar contributes at least one byte. -/
theorem utf8Encode_length_ge (w : List Nat) : w.length ≤ (utf8Encode w).length := by
  induction w with
  | nil => simp [utf8Encode]
  | cons c cs ih =>
    rw [utf8Encode]
    have h1 : 1 ≤ (utf8EncodeChar c).length := by
      unfold utf8EncodeChar
      split_ifs <;> simp
    simp only [List.length_append, List.length_cons]
    omega

/-- Decoding inverts encoding on every wide string of Unicode scalar
values. -/
theorem utf8Decode_encode (w : List Nat) (hw : ∀ c ∈ w, c < 0x110000) :
    utf8Decode (utf8Encode w) = w := by
  unfold utf8Decode
  have hge := utf8Encode_length_ge w
  have hsplit : (utf8Encode w).length = w.length + ((utf8Encode w).length - w.length) := by
    omega
  rw [hsplit]
  have h := utf8DecodeAux_encode w hw [] ((utf8Encode w).length - w.length)
  rw [List.append_nil] at h
  rw [h, utf8DecodeAux_nil, List.append_nil]

/-- A successful POSIX ensure run leaves the full (nonempty) path present. -/
theorem ensure_ok_mem_full (fs : FS) (p : FsPath) (hne : p ≠ [])
    (h : (PathUtils.EnsurePathExists false fs p).err = none) :
    p ∈ (PathUtils.EnsurePathExists false fs p).fs.dirs := by
  rcases ensureGo_ok_mem p fs [] h with h0 | hm
  · exact absurd h0 hne
  · simpa using hm

/-- A candidate that passed the `exists && !ec` check really is in the
directory set. -/
theorem existsNoError_mem (fs : FS) (q : FsPath) (h : existsNoError fs q = true) :
    q ∈ fs.dirs := by
  unfold existsNoError at h
  cases hq : fs.probeErr q <;> rw [hq] at h
  · simpa using h
  · simp at h

/-- Every branch of the Linux resources resolver returns an
existence-checked candidate or the executable directory. -/
theorem getAppResourcesPath_mem (env : Env) (fs : FS)
    (hexe : GetExecutableDirectory .linux env ∈ fs.dirs) :
    PathUtils.GetAppResourcesPath env fs ∈ fs.dirs := by
  unfold PathUtils.GetAppResourcesPath
  dsimp only
  split_ifs with h1 h2 h3 h4
  · exact existsNoError_mem fs _ h2
  · exact existsNoError_mem fs _ h3
  · exact hexe
  · exact existsNoError_mem fs _ h4
  · exact hexe

/-- C1 counterexample: on the POSIX branch a permission-denied existence
probe (`EACCES`) on the first, intermediate prefix of `a/b` is not treated
as existing — `EnsurePathExists` throws the generic runtime error, performs
no creation, and never proceeds to probe the deeper segment (exactly one
probe happens), contrary to the claim's platform-unqualified reading. -/
theorem ensure_posix_access_denied_throws :
    fsDeniedProbe.probeErr ["a"] = some EACCES ∧
    (PathUtils.EnsurePathExists false fsDeniedProbe ["a", "b"]).err =
      some EnsureError.runtimeError ∧
    (PathUtils.EnsurePathExists false fsDeniedProbe ["a", "b"]).probes = 1 ∧
    (PathUtils.EnsurePathExists false fsDeniedProbe ["a", "b"]).creates = 0 := by
  decide

/-- C1 (amended): only on the Windows branch is a permission-denied
existence probe treated as "exists": the routine does not attempt to create
that segment, does not throw there, leaves the filesystem unchanged at that
step, and proceeds to probe the next deeper segment (one extra probe, no
extra creation); on POSIX builds the same probe error raises the generic
runtime error instead. -/
theorem ensure_win32_access_denied_skips_segment (fs : FS) (acc : FsPath) (seg : Seg)
    (rest : List Seg) (h : fs.probeErr (acc ++ [seg]) = some ERROR_ACCESS_DENIED) :
    ensureGo true fs acc (seg :: rest) =
      { ensureGo true fs (acc ++ [seg]) rest with
        probes := (ensureGo true fs (acc ++ [seg]) rest).probes + 1 } := by
  apply ensureGo_cons_skip
  unfold classifyProbe
  rw [h]
  simp

/-- Witness for the amended C1 at a concrete input: the probe of
`C:/locked` reports access denied and the Windows routine skips it and
moves on to the deeper segment. -/
theorem ensure_win32_access_denied_skips_segment_w :
    fsDeniedWin.probeErr (["C:"] ++ ["locked"]) = some ERROR_ACCESS_DENIED ∧
    ensureGo true fsDeniedWin ["C:"] ("locked" :: ["sub"]) =
      { ensureGo true fsDeniedWin (["C:"] ++ ["locked"]) ["sub"] with
        probes := (ensureGo true fsDeniedWin (["C:"] ++ ["locked"]) ["sub"]).probes + 1 } :=
  ⟨by decide,
   ensure_win32_access_denied_skips_segment fsDeniedWin ["C:"] "locked" ["sub"] (by decide)⟩

/-- C2: every Linux-branch role-path resolver either throws or returns a
path that exists at the moment of return: the three ensure-based resolvers
return a path present in the final filesystem whenever no exception
escapes, and the resources resolver returns an existence-checked container
candidate or the executable directory (whose existence is the environment
assumption the unchecked `return` relies on, recorded as a hypothesis). -/
theorem rolePathResolvers_return_existing_or_throw (c : BaseCache) (env : Env) (fs : FS) :
    ((PathUtils.GetRoamingDataPath c env fs).err = none →
      (PathUtils.GetRoamingDataPath c env fs).path ∈
        (PathUtils.GetRoamingDataPath c env fs).fs.dirs) ∧
    ((PathUtils.GetPersonalDataPath c env fs).err = none →
      (PathUtils.GetPersonalDataPath c env fs).path ∈
        (PathUtils.GetPersonalDataPath c env fs).fs.dirs) ∧
    ((PathUtils.GetCachePath c env fs).err = none →
      (PathUtils.GetCachePath c env fs).path ∈
        (PathUtils.GetCachePath c env fs).fs.dirs) ∧
    (GetExecutableDirectory .linux env ∈ fs.dirs →
      PathUtils.GetAppResourcesPath env fs ∈ fs.dirs) := by
  refine ⟨fun he => ?_, fun he => ?_, fun he => ?_, fun hexe => ?_⟩
  · exact ensure_ok_mem_full _ _ (by simp) he
  · exact ensure_ok_mem_full _ _ (by simp) he
  · exact ensure_ok_mem_full _ _ (by simp) he
  · exact getAppResourcesPath_mem env fs hexe

/-- Witness for C2 at a concrete state: all four resolvers return paths
that exist afterwards. -/
theorem rolePathResolvers_return_existing_or_throw_w :
    (PathUtils.GetRoamingDataPath baseCacheW envW fsW).path ∈
      (PathUtils.GetRoamingDataPath baseCacheW envW fsW).fs.dirs ∧
    (PathUtils.GetPersonalDataPath baseCacheW envW fsW).path ∈
      (PathUtils.GetPersonalDataPath baseCacheW envW fsW).fs.dirs ∧
    (PathUtils.GetCachePath baseCacheW envW fsW).path ∈
      (PathUtils.GetCachePath baseCacheW envW fsW).fs.dirs ∧
    PathUtils.GetAppResourcesPath envW fsW ∈ fsW.dirs :=
  ⟨(rolePathResolvers_return_existing_or_throw baseCacheW envW fsW).1 (by decide),
   (rolePathResolvers_return_existing_or_throw baseCacheW envW fsW).2.1 (by decide),
   (rolePathResolvers_return_existing_or_throw baseCacheW envW fsW).2.2.1 (by decide),
   (rolePathResolvers_return_existing_or_throw baseCacheW envW fsW).2.2.2 (by decide)⟩

/-- C3 counterexample: with an error-free probe of a missing directory and
an OS-level creation failure, `EnsurePathExists` raises the
`fs::filesystem_error` escaping from the throwing `fs::create_directory`
overload — contrary to the claim that per-segment creation errors are never
raised. -/
theorem ensure_raises_create_failure :
    fsCreateFail.probeErr ["a"] = none ∧
    fsCreateFail.createErr ["a"] = true ∧
    (PathUtils.EnsurePathExists false fsCreateFail ["a"]).err =
      some EnsureError.filesystemError := by
  decide

/-- C3 (amended): `EnsurePathExists` raises an error exactly when some
probed prefix of the path either reports an unexpected OS error from its
existence probe (neither not-found nor, on Windows, permission-denied) or
is deemed absent, really is missing, and its creation call fails at the OS
level; creation failures therefore propagate — only the creation call's
boolean result (directory already existed) is ignored. -/
theorem ensure_raises_iff_probe_or_create_failure (win32 : Bool) (fs : FS) (p : FsPath) :
    (PathUtils.EnsurePathExists win32 fs p).err ≠ none ↔
      ∃ k, k < p.length ∧ stepFails win32 fs (p.take (k + 1)) = true := by
  simpa using ensureGo_err_iff win32 p fs []

/-- C4 counterexample: on the Windows branch the `GetModuleFileNameW`
result is never checked, so a failed query does not fall back to the
current working directory — the function returns the parent of the
unspecified buffer contents instead. -/
theorem getExecutableDirectory_win32_no_fallback :
    envWinQueryFailed.winQueryOk = false ∧
    GetExecutableDirectory .win32 envWinQueryFailed ≠ envWinQueryFailed.cwd := by
  decide

/-- C4 (amended): `GetExecutableDirectory` never throws; on the Apple and
Linux/FreeBSD branches a failed executable-path query falls back to the
current working directory, and the final fallback branch always returns it;
on the Windows branch, however, the query's success is never consulted —
the function returns the parent of whatever the buffer holds, regardless,
with no current-directory fallback. -/
theorem getExecutableDirectory_fallback_behavior (env : Env) :
    GetExecutableDirectory .apple { env with appleExePath := none } = env.cwd ∧
    GetExecutableDirectory .linux { env with procSelfExe := none } = env.cwd ∧
    GetExecutableDirectory .other env = env.cwd ∧
    (∀ b : Bool, GetExecutableDirectory .win32 { env with winQueryOk := b } =
      env.winModuleFileName.dropLast) :=
  ⟨rfl, rfl, rfl, fun _ => rfl⟩

/-- C5: on the Linux/FreeBSD/Emscripten branch `GetAppResourcesPath` checks
its candidates in a fixed order — `APPIMAGE` marker with its declared
`APPDIR/usr/share` path existing, then the fixed `/app/share` Flatpak path
if present on disk, then the executable directory — and the first matching,
existing candidate is returned with no further candidates checked; in
particular, with the marker present and its declared path existing that
path is returned, and with no container markers present the executable
directory is returned. -/
theorem getAppResourcesPath_candidate_order (env : Env) (fs : FS) :
    (∀ m, env.appimage = some m →
      existsNoError fs (env.appdir.getD [] ++ ["usr", "share"]) = true →
      PathUtils.GetAppResourcesPath env fs = env.appdir.getD [] ++ ["usr", "share"]) ∧
    (env.appimage = none → existsNoError fs ["/", "app", "share"] = true →
      PathUtils.GetAppResourcesPath env fs = ["/", "app", "share"]) ∧
    (∀ m, env.appimage = some m →
      existsNoError fs (env.appdir.getD [] ++ ["usr", "share"]) = false →
      existsNoError fs ["/", "app", "share"] = true →
      PathUtils.GetAppResourcesPath env fs = ["/", "app", "share"]) ∧
    (env.appimage = none → existsNoError fs ["/", "app", "share"] = false →
      PathUtils.GetAppResourcesPath env fs = GetExecutableDirectory .linux env) ∧
    (∀ m, env.appimage = some m →
      existsNoError fs (env.appdir.getD [] ++ ["usr", "share"]) = false →
      existsNoError fs ["/", "app", "share"] = false →
      PathUtils.GetAppResourcesPath env fs = GetExecutableDirectory .linux env) := by
  unfold PathUtils.GetAppResourcesPath
  refine ⟨?_, ?_, ?_, ?_, ?_⟩
  · intro m hm h1
    simp [hm, h1]
  · intro hm h2
    simp [hm, h2]
  · intro m hm h1 h2
    simp [hm, h1, h2]
  · intro hm h2
    simp [hm, h2]
  · intro m hm h1 h2
    simp [hm, h1, h2]

/-- Witness for C5 at concrete states: with the AppImage marker present and
its resource path on disk, that path (not the executable directory) comes
back; with no container markers, the executable directory comes back. -/
theorem getAppResourcesPath_candidate_order_w :
    PathUtils.GetAppResourcesPath envAppImg fsAppImg = ["tmp", "mount", "usr", "share"] ∧
    PathUtils.GetAppResourcesPath envPlain fsEmpty = ["opt"] :=
  ⟨by
    have h := (getAppResourcesPath_candidate_order envAppImg fsAppImg).1 _ rfl (by decide)
    simpa [envAppImg] using h,
   by
    have h := (getAppResourcesPath_candidate_order envPlain fsEmpty).2.2.2.1 rfl (by decide)
    simpa [envPlain, GetExecutableDirectory] using h⟩

/-- C6: the base directory is computed once: the first call from the
uninitialized static state returns the executable directory joined with the
fixed `"TeknoParrot"` segment and latches value and guard flag; every later
call — under any environment and filesystem — returns the latched value
unchanged, recomputing nothing and touching nothing. -/
theorem teknoParrotBaseDirectory_cached_once (plat : Platform) (env : Env) (fs : FS)
    (env2 : Env) (fs2 : FS) :
    (GetTeknoParrotBaseDirectory plat { teknoParrotPath := [], flag := false } env fs).path =
      GetExecutableDirectory plat env ++ ["TeknoParrot"] ∧
    GetTeknoParrotBaseDirectory plat
        (GetTeknoParrotBaseDirectory plat { teknoParrotPath := [], flag := false } env fs).cache
        env2 fs2 =
      { path :=
          (GetTeknoParrotBaseDirectory plat { teknoParrotPath := [], flag := false } env fs).path,
        cache :=
          (GetTeknoParrotBaseDirectory plat { teknoParrotPath := [], flag := false } env fs).cache,
        fs := fs2 } :=
  ⟨rfl, rfl⟩

/-- C7: the native-string bridge round-trips every path: identity on
byte-string natives, and UTF-8 encode then decode is the identity on wide
natives for any wide string of Unicode scalar values. -/
theorem nativeString_path_roundtrip :
    (∀ s : List Nat,
      PathUtils.GetPathFromNativeString false (PathUtils.GetNativeStringFromPath (.bytes s)) =
        .bytes s) ∧
    (∀ w : List Nat, (∀ c ∈ w, c < 0x110000) →
      PathUtils.GetPathFromNativeString true (PathUtils.GetNativeStringFromPath (.wide w)) =
        .wide w) := by
  constructor
  · intro s
    rfl
  · intro w hw
    show NativePath.wide (utf8Decode (utf8Encode w)) = NativePath.wide w
    rw [utf8Decode_encode w hw]

/-- Witness for C7 on a concrete wide path mixing one-, two-, three- and
four-byte scalars. -/
theorem nativeString_path_roundtrip_w :
    (∀ c ∈ [72, 1040, 9731, 66376], c < 0x110000) ∧
    PathUtils.GetPathFromNativeString true
        (PathUtils.GetNativeStringFromPath (.wide [72, 1040, 9731, 66376])) =
      .wide [72, 1040, 9731, 66376] :=
  ⟨by decide, nativeString_path_roundtrip.2 [72, 1040, 9731, 66376] (by decide)⟩

/-- C8: `EnsurePathExists` is idempotent — a second run on the filesystem
state the first run produced yields the same end filesystem state (and the
same exception outcome) as the single run, on both platform branches. -/
theorem ensurePathExists_idempotent (win32 : Bool) (fs : FS) (p : FsPath) :
    (PathUtils.EnsurePathExists win32 (PathUtils.EnsurePathExists win32 fs p).fs p).fs =
      (PathUtils.EnsurePathExists win32 fs p).fs ∧
    (PathUtils.EnsurePathExists win32 (PathUtils.EnsurePathExists win32 fs p).fs p).err =
      (PathUtils.EnsurePathExists win32 fs p).err :=
  ensureGo_idem win32 p fs []

/-- C9: over a path of depth N, `EnsurePathExists` walks growing prefixes
left to right with at most N existence probes (one per prefix) and at most
N creation attempts, each creation a single non-recursive
`fs::create_directory` of exactly the current prefix. -/
theorem ensurePathExists_probe_create_bounds (win32 : Bool) (fs : FS) (p : FsPath) :
    (PathUtils.EnsurePathExists win32 fs p).probes ≤ p.length ∧
    (PathUtils.EnsurePathExists win32 fs p).creates ≤ p.length := by
  have h := ensureGo_counts win32 p fs []
  exact ⟨h.1, le_trans h.2 h.1⟩

/-- C10: on the Android branch, each setter only stores the supplied value
in its own module-level field, and no getter ever reads the injected roots:
running any getter after a setter gives the same path, filesystem and
outcome as before, the only difference being the stored field itself. -/
theorem android_setters_frame (s : PathUtils.AndroidState) (v : String) (env : Env) (fs : FS) :
    (PathUtils.SetFilesDirPath v s).filesDirPath = v ∧
    (PathUtils.SetFilesDirPath v s).cacheDirPath = s.cacheDirPath ∧
    (PathUtils.SetFilesDirPath v s).base = s.base ∧
    (PathUtils.SetCacheDirPath v s).cacheDirPath = v ∧
    (PathUtils.SetCacheDirPath v s).filesDirPath = s.filesDirPath ∧
    (PathUtils.SetCacheDirPath v s).base = s.base ∧
    PathUtils.Android.GetAppResourcesPath (PathUtils.SetFilesDirPath v s) env fs =
      { PathUtils.Android.GetAppResourcesPath s env fs with
        state := PathUtils.SetFilesDirPath v
          (PathUtils.Android.GetAppResourcesPath s env fs).state } ∧
    PathUtils.Android.GetRoamingDataPath (PathUtils.SetFilesDirPath v s) env fs =
      { PathUtils.Android.GetRoamingDataPath s env fs with
        state := PathUtils.SetFilesDirPath v
          (PathUtils.Android.GetRoamingDataPath s env fs).state } ∧
    PathUtils.Android.GetPersonalDataPath (PathUtils.SetFilesDirPath v s) env fs =
      { PathUtils.Android.GetPersonalDataPath s env fs with
        state := PathUtils.SetFilesDirPath v
          (PathUtils.Android.GetPersonalDataPath s env fs).state } ∧
    PathUtils.Android.GetCachePath (PathUtils.SetFilesDirPath v s) env fs =
      { PathUtils.Android.GetCachePath s env fs with
        state := PathUtils.SetFilesDirPath v
          (PathUtils.Android.GetCachePath s env fs).state } ∧
    PathUtils.Android.GetAppResourcesPath (PathUtils.SetCacheDirPath v s) env fs =
      { PathUtils.Android.GetAppResourcesPath s env fs with
        state := PathUtils.SetCacheDirPath v
          (PathUtils.Android.GetAppResourcesPath s env fs).state } ∧
    PathUtils.Android.GetRoamingDataPath (PathUtils.SetCacheDirPath v s) env fs =
      { PathUtils.Android.GetRoamingDataPath s env fs with
        state := PathUtils.SetCacheDirPath v
          (PathUtils.Android.GetRoamingDataPath s env fs).state } ∧
    PathUtils.Android.GetPersonalDataPath (PathUtils.SetCacheDirPath v s) env fs =
      { PathUtils.Android.GetPersonalDataPath s env fs with
        state := PathUtils.SetCacheDirPath v
          (PathUtils.Android.GetPersonalDataPath s env fs).state } ∧
    PathUtils.Android.GetCachePath (PathUtils.SetCacheDirPath v s) env fs =
      { PathUtils.Android.GetCachePath s env fs with
        state := PathUtils.SetCacheDirPath v
          (PathUtils.Android.GetCachePath s env fs).state } :=
  ⟨rfl, rfl, rfl, rfl, rfl, rfl, rfl, rfl, rfl, rfl, rfl, rfl, rfl, rfl⟩
